import Mathlib

/-!
Shallow embedding of the similarity-detection core of the Plagiarism-Detector
backend (`backend/app/services/similarity.py`, `backend/app/services/detection.py`,
`backend/app/services/embeddings.py`, `backend/app/api/analyze.py`).

Python floats are modelled as exact rationals; Python `ValueError` and
`RuntimeError` are modelled by an explicit error type together with `Except`.
Texts are modelled as lists of characters, embedding matrices as lists of rows.
-/

namespace PlagiarismDetector

/-- Python exception kinds raised by the backend (exception messages elided). -/
inductive PyError where
  | valueError
  | runtimeError
deriving DecidableEq, Repr

/-- Dot product of two vectors, `np.dot(embeddings[i], embeddings[j])` on 1-D rows. -/
def dotProduct (a b : List ℚ) : ℚ := (List.zipWith (fun x y => x * y) a b).sum

/-- Total number of scalar entries of a 2-D array, `ndarray.size`:
for a rectangular array of `n` rows of width `d` this is `n * d`. -/
def emSize (e : List (List ℚ)) : ℕ := (e.map List.length).sum

/-- Entry `(i, j)` of a matrix stored as a list of rows (`similarity_matrix[i, j]`). -/
def matEntry (m : List (List ℚ)) (i j : ℕ) : ℚ := (m.getD i []).getD j 0

/-- The value the double loop of `calculate_similarity_matrix` leaves at position
`(i, j)`: `1.0` on the diagonal, and for `i ≠ j` the dot product computed once for
the upper-triangle position and mirrored into the lower triangle. -/
def simEntryFun (e : List (List ℚ)) (i j : ℕ) : ℚ :=
  if i = j then 1
  else if i < j then dotProduct (e.getD i []) (e.getD j [])
  else dotProduct (e.getD j []) (e.getD i [])

/-- The `n_texts × n_texts` array built by `SimilarityService.calculate_similarity_matrix`. -/
def simMatrix (e : List (List ℚ)) : List (List ℚ) :=
  (List.range e.length).map fun i => (List.range e.length).map fun j => simEntryFun e i j

/-- `SimilarityService.calculate_similarity_matrix`: raises `ValueError` when
`embeddings.size == 0`, otherwise returns the pairwise similarity matrix. -/
def calculate_similarity_matrix (e : List (List ℚ)) : Except PyError (List (List ℚ)) :=
  if emSize e = 0 then .error .valueError else .ok (simMatrix e)

theorem getD_map_range {α : Type} (f : ℕ → α) {n i : ℕ} (d : α) (h : i < n) :
    ((List.range n).map f).getD i d = f i := by
  rw [List.getD_eq_getElem?_getD, List.getElem?_eq_getElem (by simpa using h)]
  simp

theorem matEntry_simMatrix (e : List (List ℚ)) {i j : ℕ}
    (hi : i < e.length) (hj : j < e.length) :
    matEntry (simMatrix e) i j = simEntryFun e i j := by
  unfold matEntry simMatrix
  rw [getD_map_range _ _ hi, getD_map_range _ _ hj]

theorem simEntryFun_symm (e : List (List ℚ)) (i j : ℕ) :
    simEntryFun e i j = simEntryFun e j i := by
  unfold simEntryFun
  rcases lt_trichotomy i j with h | h | h
  · rw [if_neg h.ne, if_pos h, if_neg h.ne', if_neg (not_lt.mpr h.le)]
  · simp [h]
  · rw [if_neg h.ne', if_neg (not_lt.mpr h.le), if_pos h, if_neg h.ne]

theorem emSize_pos (e : List (List ℚ)) (he : e ≠ []) (hv : ∀ v ∈ e, v ≠ []) :
    emSize e ≠ 0 := by
  cases e with
  | nil => exact absurd rfl he
  | cons v rest =>
    have hvne : v ≠ [] := hv v (List.mem_cons_self _ _)
    have : 0 < v.length := List.length_pos.mpr hvne
    unfold emSize
    simp only [List.map_cons, List.sum_cons]
    omega

/-- C1: for every non-empty sequence of (non-degenerate) embedding vectors,
`calculate_similarity_matrix` returns a matrix that is symmetric and whose
diagonal entries are exactly `1.0`, regardless of the vectors' content. -/
theorem c1_similarity_matrix_symmetric_unit_diagonal (e : List (List ℚ))
    (he : e ≠ []) (hv : ∀ v ∈ e, v ≠ []) :
    ∃ M, calculate_similarity_matrix e = Except.ok M ∧
      (∀ i j, i < e.length → j < e.length → matEntry M i j = matEntry M j i) ∧
      (∀ i, i < e.length → matEntry M i i = 1) := by
  refine ⟨simMatrix e, ?_, ?_, ?_⟩
  · unfold calculate_similarity_matrix
    rw [if_neg (emSize_pos e he hv)]
  · intro i j hi hj
    rw [matEntry_simMatrix e hi hj, matEntry_simMatrix e hj hi, simEntryFun_symm]
  · intro i hi
    rw [matEntry_simMatrix e hi hi]
    unfold simEntryFun
    rw [if_pos rfl]

/-- Witness for C1 at a concrete pair of embedding vectors. -/
theorem c1_witness :
    ∃ M, calculate_similarity_matrix [[1, 0], [0, 1]] = Except.ok M ∧
      (∀ i j, i < ([[(1 : ℚ), 0], [0, 1]] : List (List ℚ)).length →
        j < ([[(1 : ℚ), 0], [0, 1]] : List (List ℚ)).length →
        matEntry M i j = matEntry M j i) ∧
      (∀ i, i < ([[(1 : ℚ), 0], [0, 1]] : List (List ℚ)).length → matEntry M i i = 1) :=
  c1_similarity_matrix_symmetric_unit_diagonal [[1, 0], [0, 1]] (by decide) (by decide)

/-- Index pairs visited by the nested loops
`for i in range(n_texts): for j in range(i + 1, n_texts)`. -/
def upperPairs (n : ℕ) : List (ℕ × ℕ) :=
  (List.range n).flatMap fun i => (List.range' (i + 1) (n - (i + 1))).map fun j => (i, j)

/-- The list built by the upper-triangle scan of `find_similar_pairs` before
sorting: a triple `(i, j, similarity)` is appended iff `similarity >= threshold`. -/
def collectPairs (m : List (List ℚ)) (t : ℚ) : List (ℕ × ℕ × ℚ) :=
  (upperPairs m.length).filterMap fun p =>
    if t ≤ matEntry m p.1 p.2 then some (p.1, p.2, matEntry m p.1 p.2) else none

/-- Stable insertion (descending by the score component) used to model
Python's stable `list.sort(key=lambda x: x[2], reverse=True)`: an element is
inserted before the first element whose score is not larger, so elements with
equal scores keep their original relative order. -/
def insertDescBy (x : ℕ × ℕ × ℚ) : List (ℕ × ℕ × ℚ) → List (ℕ × ℕ × ℚ)
  | [] => [x]
  | y :: ys => if x.2.2 < y.2.2 then y :: insertDescBy x ys else x :: y :: ys

/-- Stable sort, descending by score (model of Python's stable `list.sort` with
`reverse=True`). -/
def sortDescBy : List (ℕ × ℕ × ℚ) → List (ℕ × ℕ × ℚ)
  | [] => []
  | x :: xs => insertDescBy x (sortDescBy xs)

/-- `SimilarityService.find_similar_pairs`: raises `ValueError` unless
`0.0 <= threshold <= 1.0`, otherwise scans the strict upper triangle and returns
the qualifying triples sorted by descending similarity. -/
def find_similar_pairs (m : List (List ℚ)) (t : ℚ) : Except PyError (List (ℕ × ℕ × ℚ)) :=
  if 0 ≤ t ∧ t ≤ 1 then .ok (sortDescBy (collectPairs m t)) else .error .valueError

theorem mem_upperPairs {n i j : ℕ} : (i, j) ∈ upperPairs n ↔ i < j ∧ j < n := by
  unfold upperPairs
  simp only [List.mem_flatMap, List.mem_map, List.mem_range, List.mem_range'_1, Prod.mk.injEq]
  constructor
  · rintro ⟨a, ha, b, ⟨hb1, hb2⟩, rfl, rfl⟩
    omega
  · rintro ⟨hij, hjn⟩
    exact ⟨i, by omega, j, ⟨by omega, by omega⟩, rfl, rfl⟩

theorem mem_collectPairs {m : List (List ℚ)} {t : ℚ} {i j : ℕ} {s : ℚ} :
    (i, j, s) ∈ collectPairs m t ↔
      i < j ∧ j < m.length ∧ s = matEntry m i j ∧ t ≤ matEntry m i j := by
  unfold collectPairs
  simp only [List.mem_filterMap]
  constructor
  · rintro ⟨⟨a, b⟩, hp, hif⟩
    by_cases h : t ≤ matEntry m a b
    · rw [if_pos h] at hif
      obtain ⟨rfl, rfl, rfl⟩ : a = i ∧ b = j ∧ matEntry m a b = s := by
        simpa [Prod.ext_iff] using hif
      have := mem_upperPairs.mp hp
      exact ⟨this.1, this.2, rfl, h⟩
    · rw [if_neg h] at hif
      exact absurd hif (by simp)
  · rintro ⟨hij, hjn, rfl, ht⟩
    exact ⟨(i, j), mem_upperPairs.mpr ⟨hij, hjn⟩, by rw [if_pos ht]⟩

theorem insertDescBy_perm (x : ℕ × ℕ × ℚ) (l : List (ℕ × ℕ × ℚ)) :
    List.Perm (insertDescBy x l) (x :: l) := by
  induction l with
  | nil => exact List.Perm.refl _
  | cons y ys ih =>
    rw [insertDescBy]
    by_cases h : x.2.2 < y.2.2
    · rw [if_pos h]
      exact (ih.cons y).trans (List.Perm.swap x y ys)
    · rw [if_neg h]

theorem sortDescBy_perm (l : List (ℕ × ℕ × ℚ)) : List.Perm (sortDescBy l) l := by
  induction l with
  | nil => exact List.Perm.refl _
  | cons x xs ih =>
    rw [sortDescBy]
    exact (insertDescBy_perm x (sortDescBy xs)).trans (ih.cons x)

/-- Strict lexicographic order on the index components of two triples. -/
def tripleLex (p q : ℕ × ℕ × ℚ) : Prop :=
  p.1 < q.1 ∨ (p.1 = q.1 ∧ p.2.1 < q.2.1)

/-- The order guaranteed for the output of `find_similar_pairs`: strictly
descending score, with ties broken by ascending index pair. -/
def outRel (p q : ℕ × ℕ × ℚ) : Prop :=
  q.2.2 < p.2.2 ∨ (p.2.2 = q.2.2 ∧ tripleLex p q)

theorem upperPairs_pairwise (n : ℕ) :
    (upperPairs n).Pairwise fun a b : ℕ × ℕ => a.1 < b.1 ∨ (a.1 = b.1 ∧ a.2 < b.2) := by
  unfold upperPairs
  rw [List.pairwise_flatMap]
  constructor
  · intro a _
    rw [List.pairwise_map]
    exact (List.pairwise_lt_range' _ _).imp fun h => Or.inr ⟨rfl, h⟩
  · refine (List.pairwise_lt_range n).imp ?_
    intro a b hab x hx y hy
    simp only [List.mem_map] at hx hy
    obtain ⟨jx, _, rfl⟩ := hx
    obtain ⟨jy, _, rfl⟩ := hy
    exact Or.inl hab

theorem collectPairs_pairwise (m : List (List ℚ)) (t : ℚ) :
    (collectPairs m t).Pairwise tripleLex := by
  unfold collectPairs
  rw [List.pairwise_filterMap]
  refine (upperPairs_pairwise m.length).imp ?_
  intro a b hab x hx y hy
  rw [Option.mem_def] at hx hy
  by_cases ha : t ≤ matEntry m a.1 a.2
  · by_cases hb : t ≤ matEntry m b.1 b.2
    · rw [if_pos ha, Option.some.injEq] at hx
      rw [if_pos hb, Option.some.injEq] at hy
      subst hx
      subst hy
      exact hab
    · rw [if_neg hb] at hy
      cases hy
  · rw [if_neg ha] at hx
    cases hx

theorem mem_insertDescBy {z x : ℕ × ℕ × ℚ} {l : List (ℕ × ℕ × ℚ)} :
    z ∈ insertDescBy x l ↔ z = x ∨ z ∈ l := by
  rw [(insertDescBy_perm x l).mem_iff, List.mem_cons]

theorem mem_sortDescBy {z : ℕ × ℕ × ℚ} {l : List (ℕ × ℕ × ℚ)} :
    z ∈ sortDescBy l ↔ z ∈ l :=
  (sortDescBy_perm l).mem_iff

theorem insertDescBy_pairwise {x : ℕ × ℕ × ℚ} {l : List (ℕ × ℕ × ℚ)}
    (hl : l.Pairwise outRel) (hx : ∀ y ∈ l, tripleLex x y) :
    (insertDescBy x l).Pairwise outRel := by
  induction l with
  | nil => simp [insertDescBy]
  | cons y ys ih =>
    rw [insertDescBy]
    rw [List.pairwise_cons] at hl
    by_cases h : x.2.2 < y.2.2
    · rw [if_pos h, List.pairwise_cons]
      refine ⟨?_, ih hl.2 fun z hz => hx z (List.mem_cons_of_mem _ hz)⟩
      intro z hz
      rcases mem_insertDescBy.mp hz with rfl | hz'
      · exact Or.inl h
      · exact hl.1 z hz'
    · rw [if_neg h, List.pairwise_cons]
      have hyx : y.2.2 ≤ x.2.2 := not_lt.mp h
      constructor
      · intro z hz
        rcases List.mem_cons.mp hz with rfl | hz'
        · rcases lt_or_eq_of_le hyx with hlt | heq
          · exact Or.inl hlt
          · exact Or.inr ⟨heq.symm, hx z (List.mem_cons_self _ _)⟩
        · have hyz := hl.1 z hz'
          have hzx : z.2.2 ≤ x.2.2 := by
            rcases hyz with hlt | ⟨heq, _⟩
            · exact (le_of_lt hlt).trans hyx
            · exact heq ▸ hyx
          rcases lt_or_eq_of_le hzx with hlt | heq2
          · exact Or.inl hlt
          · exact Or.inr ⟨heq2.symm, hx z (List.mem_cons_of_mem _ hz')⟩
      · exact List.pairwise_cons.mpr hl

theorem sortDescBy_pairwise {l : List (ℕ × ℕ × ℚ)} (hl : l.Pairwise tripleLex) :
    (sortDescBy l).Pairwise outRel := by
  induction l with
  | nil => exact List.Pairwise.nil
  | cons x xs ih =>
    rw [sortDescBy]
    rw [List.pairwise_cons] at hl
    exact insertDescBy_pairwise (ih hl.2) fun y hy => hl.1 y (mem_sortDescBy.mp hy)

theorem find_similar_pairs_ok {m : List (List ℚ)} {t : ℚ} (h0 : 0 ≤ t) (h1 : t ≤ 1) :
    find_similar_pairs m t = Except.ok (sortDescBy (collectPairs m t)) := by
  unfold find_similar_pairs
  rw [if_pos ⟨h0, h1⟩]

theorem mem_find_similar_pairs {m : List (List ℚ)} {t : ℚ} {l : List (ℕ × ℕ × ℚ)}
    (h : find_similar_pairs m t = Except.ok l) {i j : ℕ} {s : ℚ} :
    (i, j, s) ∈ l ↔ i < j ∧ j < m.length ∧ s = matEntry m i j ∧ t ≤ matEntry m i j := by
  unfold find_similar_pairs at h
  by_cases hv : 0 ≤ t ∧ t ≤ 1
  · rw [if_pos hv, Except.ok.injEq] at h
    rw [← h, mem_sortDescBy, mem_collectPairs]
  · rw [if_neg hv] at h
    cases h

/-- C2: for every matrix and every threshold in `[0, 1]`, `find_similar_pairs`
returns exactly the strict-upper-triangle pairs `(i, j, score)` with
`score = matrix(i, j) ≥ threshold` (inclusive boundary), each unordered pair
reported at most once and never a diagonal or lower-triangle index pair. -/
theorem c2_find_similar_pairs_membership (m : List (List ℚ)) (t : ℚ)
    (h0 : 0 ≤ t) (h1 : t ≤ 1) :
    ∃ l, find_similar_pairs m t = Except.ok l ∧
      (∀ i j s, (i, j, s) ∈ l ↔
        i < j ∧ j < m.length ∧ s = matEntry m i j ∧ t ≤ matEntry m i j) ∧
      (l.map fun p => (p.1, p.2.1)).Nodup := by
  refine ⟨sortDescBy (collectPairs m t), find_similar_pairs_ok h0 h1, ?_, ?_⟩
  · intro i j s
    rw [mem_sortDescBy, mem_collectPairs]
  · have hperm : List.Perm ((sortDescBy (collectPairs m t)).map fun p => (p.1, p.2.1))
        ((collectPairs m t).map fun p => (p.1, p.2.1)) :=
      (sortDescBy_perm (collectPairs m t)).map _
    rw [hperm.nodup_iff]
    refine List.Pairwise.map _ ?_ (collectPairs_pairwise m t)
    intro a b hab heq
    rw [Prod.mk.injEq] at heq
    obtain ⟨e1, e2⟩ := heq
    unfold tripleLex at hab
    rcases hab with h | ⟨h1, h2⟩ <;> omega

/-- Witness for C2 at a concrete matrix and threshold. -/
theorem c2_witness :
    ∃ l, find_similar_pairs [[(1 : ℚ), 9/10], [9/10, 1]] (1/2) = Except.ok l ∧
      (∀ i j s, (i, j, s) ∈ l ↔
        i < j ∧ j < ([[(1 : ℚ), 9/10], [9/10, 1]] : List (List ℚ)).length ∧
        s = matEntry [[(1 : ℚ), 9/10], [9/10, 1]] i j ∧
        (1/2 : ℚ) ≤ matEntry [[(1 : ℚ), 9/10], [9/10, 1]] i j) ∧
      (l.map fun p => (p.1, p.2.1)).Nodup :=
  c2_find_similar_pairs_membership [[(1 : ℚ), 9/10], [9/10, 1]] (1/2)
    (by norm_num) (by norm_num)

/-- C3: the list returned by `find_similar_pairs` is sorted in descending order
of score, with equal scores ordered by ascending index pair; two calls with the
same matrix and threshold return identical output (immediate here since the
embedded function is pure, and true of the source since Python's `list.sort` is
stable and the scan order is ascending in the index pair). -/
theorem c3_output_sorted_and_deterministic (m : List (List ℚ)) (t : ℚ)
    (h0 : 0 ≤ t) (h1 : t ≤ 1) :
    ∃ l, find_similar_pairs m t = Except.ok l ∧
      l.Pairwise (fun p q =>
        q.2.2 < p.2.2 ∨ (p.2.2 = q.2.2 ∧ (p.1 < q.1 ∨ (p.1 = q.1 ∧ p.2.1 < q.2.1)))) ∧
      find_similar_pairs m t = find_similar_pairs m t := by
  refine ⟨sortDescBy (collectPairs m t), find_similar_pairs_ok h0 h1, ?_, rfl⟩
  exact sortDescBy_pairwise (collectPairs_pairwise m t)

/-- Witness for C3 at a concrete matrix and threshold. -/
theorem c3_witness :
    ∃ l, find_similar_pairs [[(1 : ℚ), 9/10, 2/10], [9/10, 1, 3/10], [2/10, 3/10, 1]] 0
        = Except.ok l ∧
      l.Pairwise (fun p q =>
        q.2.2 < p.2.2 ∨ (p.2.2 = q.2.2 ∧ (p.1 < q.1 ∨ (p.1 = q.1 ∧ p.2.1 < q.2.1)))) ∧
      find_similar_pairs [[(1 : ℚ), 9/10, 2/10], [9/10, 1, 3/10], [2/10, 3/10, 1]] 0
        = find_similar_pairs [[(1 : ℚ), 9/10, 2/10], [9/10, 1, 3/10], [2/10, 3/10, 1]] 0 :=
  c3_output_sorted_and_deterministic _ 0 (by norm_num) (by norm_num)

/-- C4: lowering the threshold can only add pairs: every member of the result at
the higher threshold is a member of the result at the lower threshold. -/
theorem c4_threshold_monotonic (m : List (List ℚ)) (t1 t2 : ℚ)
    (h1a : 0 ≤ t1) (h1b : t1 ≤ 1) (h2a : 0 ≤ t2) (h2b : t2 ≤ 1) (hlt : t1 < t2)
    (l1 l2 : List (ℕ × ℕ × ℚ))
    (e1 : find_similar_pairs m t1 = Except.ok l1)
    (e2 : find_similar_pairs m t2 = Except.ok l2) :
    ∀ p ∈ l2, p ∈ l1 := by
  intro p hp
  obtain ⟨i, j, s⟩ := p
  rw [mem_find_similar_pairs e2] at hp
  rw [mem_find_similar_pairs e1]
  exact ⟨hp.1, hp.2.1, hp.2.2.1, le_trans (le_of_lt hlt) hp.2.2.2⟩

/-- Witness for C4 at a concrete matrix and pair of thresholds. -/
theorem c4_witness :
    ((0 : ℕ), (1 : ℕ), (1 : ℚ)) ∈ [((0 : ℕ), (1 : ℕ), (1 : ℚ))] :=
  c4_threshold_monotonic [[1, 1], [1, 1]] 0 1
    (by norm_num) (by norm_num) (by norm_num) (by norm_num) (by norm_num)
    [((0 : ℕ), (1 : ℕ), (1 : ℚ))] [((0 : ℕ), (1 : ℕ), (1 : ℚ))]
    (by rfl) (by rfl) ((0 : ℕ), (1 : ℕ), (1 : ℚ)) (by decide)

/-- C6: `find_similar_pairs` fails (with the `ValueError` kind) exactly when the
threshold lies outside `[0, 1]`; inside the range it returns normally on any
matrix, and on a validation failure the result does not depend on the matrix at
all (fail fast, no scan, no partial result). -/
theorem c6_threshold_validation (m : List (List ℚ)) (t : ℚ) :
    ((∃ l, find_similar_pairs m t = Except.ok l) ↔ 0 ≤ t ∧ t ≤ 1) ∧
    (¬(0 ≤ t ∧ t ≤ 1) →
      find_similar_pairs m t = Except.error PyError.valueError ∧
      ∀ m', find_similar_pairs m' t = find_similar_pairs m t) := by
  constructor
  · constructor
    · rintro ⟨l, hl⟩
      by_contra hv
      unfold find_similar_pairs at hl
      rw [if_neg hv] at hl
      cases hl
    · intro hv
      exact ⟨_, find_similar_pairs_ok hv.1 hv.2⟩
  · intro hv
    refine ⟨?_, ?_⟩
    · unfold find_similar_pairs
      rw [if_neg hv]
    · intro m'
      unfold find_similar_pairs
      rw [if_neg hv, if_neg hv]

/-- Witness for C6: an out-of-range and an in-range threshold on a concrete
matrix. -/
theorem c6_witness :
    find_similar_pairs [[(1 : ℚ)]] 2 = Except.error PyError.valueError ∧
    ∃ l, find_similar_pairs [[(1 : ℚ)]] (1/2) = Except.ok l :=
  ⟨((c6_threshold_validation [[(1 : ℚ)]] 2).2 (by norm_num)).1,
   (c6_threshold_validation [[(1 : ℚ)]] (1/2)).1.mpr (by norm_num)⟩

/-- C10: the output of `find_similar_pairs` depends only on the strict
upper-triangle entries of the matrix: two matrices of the same size that agree
on every entry `(i, j)` with `i < j` yield identical results at every
threshold, whatever their diagonal and lower-triangle entries. -/
theorem c10_depends_only_on_upper_triangle (m m' : List (List ℚ)) (t : ℚ)
    (hlen : m.length = m'.length)
    (hupper : ∀ i j, i < j → j < m.length → matEntry m i j = matEntry m' i j) :
    find_similar_pairs m t = find_similar_pairs m' t := by
  unfold find_similar_pairs
  have hc : collectPairs m t = collectPairs m' t := by
    unfold collectPairs
    rw [← hlen]
    apply List.filterMap_congr
    intro p hp
    obtain ⟨i, j⟩ := p
    obtain ⟨hij, hjn⟩ := mem_upperPairs.mp hp
    rw [hupper i j hij hjn]
  rw [hc]

/-- Witness for C10: two concrete matrices agreeing only above the diagonal. -/
theorem c10_witness :
    find_similar_pairs [[(1 : ℚ), 2], [5, 7]] 1 = find_similar_pairs [[(9 : ℚ), 2], [6, 3]] 1 :=
  c10_depends_only_on_upper_triangle [[(1 : ℚ), 2], [5, 7]] [[(9 : ℚ), 2], [6, 3]] 1 rfl
    (by
      intro i j hij hj
      have hj1 : j = 1 := by
        simp only [List.length_cons, List.length_nil] at hj
        omega
      have hi0 : i = 0 := by omega
      subst hj1
      subst hi0
      rfl)

/-- Statistics record returned by `get_similarity_statistics`
(`total_pairs`, `mean_similarity`, `max_similarity`, `min_similarity`,
`std_similarity`). -/
structure SimilarityStatistics where
  total_pairs : ℕ
  mean_similarity : ℚ
  max_similarity : ℚ
  min_similarity : ℚ
  std_similarity : ℚ
deriving DecidableEq, Repr

/-- The `upper_triangle` list built by `get_similarity_statistics`: the strict
upper-triangle entries visited in row-major order. -/
def upperTriangle (m : List (List ℚ)) : List ℚ :=
  (upperPairs m.length).map fun p => matEntry m p.1 p.2

/-- Maximum of a list of rationals (`np.max` on a non-empty array;
the `[]` case is never reached by the code). -/
def listMax : List ℚ → ℚ
  | [] => 0
  | [a] => a
  | a :: b :: r => max a (listMax (b :: r))

/-- Minimum of a list of rationals (`np.min` on a non-empty array). -/
def listMin : List ℚ → ℚ
  | [] => 0
  | [a] => a
  | a :: b :: r => min a (listMin (b :: r))

/-- `np.std`: square root of the mean squared deviation from the mean.
Exact-rational stand-in for the float square root via `Rat.sqrt`; no claim
inspects this value on a non-empty population. -/
def npStd (l : List ℚ) : ℚ :=
  Rat.sqrt ((l.map fun x => (x - l.sum / l.length) ^ 2).sum / l.length)

/-- `SimilarityService.get_similarity_statistics`: zero-valued record when the
upper-triangle population is empty, otherwise count, mean, max, min and
standard deviation of that population. -/
def get_similarity_statistics (m : List (List ℚ)) : SimilarityStatistics :=
  let ut := upperTriangle m
  if ut = [] then ⟨0, 0, 0, 0, 0⟩
  else ⟨ut.length, ut.sum / ut.length, listMax ut, listMin ut, npStd ut⟩

theorem two_mul_sum_range : ∀ n : ℕ, 2 * (List.range n).sum = n * (n - 1) := by
  intro n
  induction n with
  | zero => rfl
  | succ n ih =>
    rw [List.range_succ, List.sum_append]
    simp only [List.sum_cons, List.sum_nil, Nat.add_zero, Nat.add_sub_cancel]
    cases n with
    | zero => rfl
    | succ m =>
      simp only [Nat.add_sub_cancel] at ih
      have hring : (m + 1) * m + 2 * (m + 1) = (m + 1 + 1) * (m + 1) := by ring
      omega

theorem sum_range_eq (n : ℕ) : (List.range n).sum = n * (n - 1) / 2 := by
  have h := two_mul_sum_range n
  omega

theorem length_upperPairs (n : ℕ) : (upperPairs n).length = n * (n - 1) / 2 := by
  unfold upperPairs
  rw [List.length_flatMap]
  have hmap : (List.range n).map
        (List.length ∘ fun i => (List.range' (i + 1) (n - (i + 1))).map fun j => (i, j))
      = (List.range n).map fun i => n - 1 - i := by
    apply List.map_congr_left
    intro i _
    simp only [Function.comp_apply, List.length_map, List.length_range']
    omega
  rw [hmap]
  have hrev : (List.range n).map (fun i => n - 1 - i) = (List.range n).reverse := by
    rw [List.range_eq_range', List.reverse_range']
    simp
    rw [← List.range_eq_range']
  rw [hrev, List.sum_reverse, sum_range_eq]

theorem le_listMax : ∀ {l : List ℚ} {x : ℚ}, x ∈ l → x ≤ listMax l := by
  intro l
  induction l with
  | nil => intro x hx; cases hx
  | cons a r ih =>
    intro x hx
    cases r with
    | nil =>
      rcases List.mem_cons.mp hx with rfl | h
      · exact le_refl _
      · cases h
    | cons b r' =>
      rw [listMax]
      rcases List.mem_cons.mp hx with rfl | h
      · exact le_max_left _ _
      · exact le_trans (ih h) (le_max_right _ _)

theorem listMin_le : ∀ {l : List ℚ} {x : ℚ}, x ∈ l → listMin l ≤ x := by
  intro l
  induction l with
  | nil => intro x hx; cases hx
  | cons a r ih =>
    intro x hx
    cases r with
    | nil =>
      rcases List.mem_cons.mp hx with rfl | h
      · exact le_refl _
      · cases h
    | cons b r' =>
      rw [listMin]
      rcases List.mem_cons.mp hx with rfl | h
      · exact min_le_left _ _
      · exact le_trans (min_le_right _ _) (ih h)

theorem sum_le_length_mul_listMax {l : List ℚ} (h : l ≠ []) :
    l.sum ≤ (l.length : ℚ) * listMax l := by
  induction l with
  | nil => exact absurd rfl h
  | cons a r ih =>
    cases r with
    | nil => simp [listMax]
    | cons b r' =>
      rw [listMax, List.sum_cons]
      have h1 : a ≤ max a (listMax (b :: r')) := le_max_left _ _
      have h2 : (b :: r').sum ≤ ((b :: r').length : ℚ) * listMax (b :: r') :=
        ih (by simp)
      have h3 : ((b :: r').length : ℚ) * listMax (b :: r')
          ≤ ((b :: r').length : ℚ) * max a (listMax (b :: r')) := by
        apply mul_le_mul_of_nonneg_left (le_max_right _ _)
        positivity
      have hlen : ((a :: b :: r').length : ℚ) = ((b :: r').length : ℚ) + 1 := by
        push_cast [List.length_cons]
        ring
      rw [hlen]
      nlinarith [h2.trans h3]

theorem length_mul_listMin_le {l : List ℚ} (h : l ≠ []) :
    (l.length : ℚ) * listMin l ≤ l.sum := by
  induction l with
  | nil => exact absurd rfl h
  | cons a r ih =>
    cases r with
    | nil => simp [listMin]
    | cons b r' =>
      rw [listMin, List.sum_cons]
      have h1 : min a (listMin (b :: r')) ≤ a := min_le_left _ _
      have h2 : ((b :: r').length : ℚ) * listMin (b :: r') ≤ (b :: r').sum :=
        ih (by simp)
      have h3 : ((b :: r').length : ℚ) * min a (listMin (b :: r'))
          ≤ ((b :: r').length : ℚ) * listMin (b :: r') := by
        apply mul_le_mul_of_nonneg_left (min_le_right _ _)
        positivity
      have hlen : ((a :: b :: r').length : ℚ) = ((b :: r').length : ℚ) + 1 := by
        push_cast [List.length_cons]
        ring
      rw [hlen]
      nlinarith [h3.trans h2]

theorem length_upperTriangle (m : List (List ℚ)) :
    (upperTriangle m).length = m.length * (m.length - 1) / 2 := by
  unfold upperTriangle
  rw [List.length_map, length_upperPairs]

/-- C5: `get_similarity_statistics` reports `total_pairs = N*(N-1)/2` for an
`N×N` matrix, returns the all-zero record for `N ≤ 1` without failing, and
whenever `total_pairs > 0` its mean lies between its min and its max. -/
theorem c5_statistics_consistency (m : List (List ℚ)) :
    (get_similarity_statistics m).total_pairs = m.length * (m.length - 1) / 2 ∧
    (m.length ≤ 1 → get_similarity_statistics m = ⟨0, 0, 0, 0, 0⟩) ∧
    (0 < (get_similarity_statistics m).total_pairs →
      (get_similarity_statistics m).min_similarity
          ≤ (get_similarity_statistics m).mean_similarity ∧
      (get_similarity_statistics m).mean_similarity
          ≤ (get_similarity_statistics m).max_similarity) := by
  by_cases hut : upperTriangle m = []
  · have hz : get_similarity_statistics m = ⟨0, 0, 0, 0, 0⟩ := by
      unfold get_similarity_statistics
      rw [if_pos hut]
    refine ⟨?_, fun _ => hz, ?_⟩
    · rw [hz]
      have hl := length_upperTriangle m
      rw [hut] at hl
      simp only [List.length_nil] at hl
      show (0 : ℕ) = m.length * (m.length - 1) / 2
      omega
    · intro hpos
      rw [hz] at hpos
      exact absurd hpos (by decide)
  · have hs : get_similarity_statistics m =
        ⟨(upperTriangle m).length, (upperTriangle m).sum / (upperTriangle m).length,
          listMax (upperTriangle m), listMin (upperTriangle m), npStd (upperTriangle m)⟩ := by
      unfold get_similarity_statistics
      rw [if_neg hut]
    refine ⟨?_, ?_, ?_⟩
    · rw [hs]
      exact length_upperTriangle m
    · intro hle
      exfalso
      apply hut
      have := length_upperTriangle m
      have hzero : m.length * (m.length - 1) / 2 = 0 := by
        have hcase : m.length = 0 ∨ m.length = 1 := by omega
        rcases hcase with h | h <;> rw [h]
      rw [hzero] at this
      exact List.eq_nil_of_length_eq_zero this
    · intro _
      rw [hs]
      have hlen : (0 : ℚ) < ((upperTriangle m).length : ℚ) := by
        have : 0 < (upperTriangle m).length := List.length_pos.mpr hut
        exact_mod_cast this
      constructor
      · rw [le_div_iff₀ hlen]
        have := length_mul_listMin_le hut
        linarith [this]
      · rw [div_le_iff₀ hlen]
        have := sum_le_length_mul_listMax hut
        linarith [this]

/-- Witness for C5: a concrete `2×2` matrix (non-degenerate branch) and a
concrete `1×1` matrix (zero-record branch). -/
theorem c5_witness :
    (get_similarity_statistics [[(1 : ℚ), 2], [2, 1]]).total_pairs
        = ([[(1 : ℚ), 2], [2, 1]] : List (List ℚ)).length
          * (([[(1 : ℚ), 2], [2, 1]] : List (List ℚ)).length - 1) / 2 ∧
    get_similarity_statistics [[(5 : ℚ)]] = ⟨0, 0, 0, 0, 0⟩ ∧
    ((get_similarity_statistics [[(1 : ℚ), 2], [2, 1]]).min_similarity
        ≤ (get_similarity_statistics [[(1 : ℚ), 2], [2, 1]]).mean_similarity ∧
      (get_similarity_statistics [[(1 : ℚ), 2], [2, 1]]).mean_similarity
        ≤ (get_similarity_statistics [[(1 : ℚ), 2], [2, 1]]).max_similarity) :=
  ⟨(c5_statistics_consistency [[(1 : ℚ), 2], [2, 1]]).1,
   (c5_statistics_consistency [[(5 : ℚ)]]).2.1 (by decide),
   (c5_statistics_consistency [[(1 : ℚ), 2], [2, 1]]).2.2 (by decide)⟩

/-- ASCII whitespace characters recognised by Python's `str.strip()` /
`str.rstrip()` (space, tab, newline, carriage return, vertical tab, form feed). -/
def pyWhitespace (c : Char) : Bool :=
  c == ' ' || c == '\t' || c == '\n' || c == '\r' || c == Char.ofNat 11 || c == Char.ofNat 12

/-- Python `str.strip()` on a text modelled as a character list. -/
def pyStrip (l : List Char) : List Char :=
  ((l.dropWhile pyWhitespace).reverse.dropWhile pyWhitespace).reverse

/-- Python `str.rstrip()`. -/
def pyRstrip (l : List Char) : List Char :=
  (l.reverse.dropWhile pyWhitespace).reverse

/-- Python `str.rfind(' ')`: index of the last space character, `none` when the
string contains no space (Python returns `-1`, which fails the `> 80` test just
as `none` does here). -/
def rfindSpace : List Char → Option ℕ
  | [] => none
  | c :: cs =>
    match rfindSpace cs with
    | some k => some (k + 1)
    | none => if c == ' ' then some 0 else none

/-- The three-character ellipsis appended by `_create_text_preview`. -/
def ellipsisL : List Char := ['.', '.', '.']

/-- The clipped stem `text.strip()[:max_length].rstrip()` of
`DetectionService._create_text_preview`. -/
def clipAt (text : List Char) (max_length : ℕ) : List Char :=
  pyRstrip ((pyStrip text).take max_length)

/-- `DetectionService._create_text_preview`. The word-boundary test
`last_space > max_length * 0.8` is modelled as `4 * max_length < 5 * k` in exact
arithmetic; at the default budget of 100 the float product `100 * 0.8` is
exactly `80.0`, so the two tests agree. -/
def create_text_preview (text : List Char) (max_length : ℕ) : List Char :=
  let t := pyStrip text
  if t.length ≤ max_length then t
  else
    let truncated := pyRstrip (t.take max_length)
    let truncated2 :=
      match rfindSpace truncated with
      | some k => if 4 * max_length < 5 * k then truncated.take k else truncated
      | none => truncated
    truncated2 ++ ellipsisL

theorem length_pyRstrip_le (l : List Char) : (pyRstrip l).length ≤ l.length := by
  unfold pyRstrip
  rw [List.length_reverse]
  calc (l.reverse.dropWhile pyWhitespace).length
      ≤ l.reverse.length := (List.dropWhile_sublist _).length_le
    _ = l.length := List.length_reverse _

theorem length_clipAt_le (text : List Char) (n : ℕ) : (clipAt text n).length ≤ n := by
  unfold clipAt
  calc (pyRstrip ((pyStrip text).take n)).length
      ≤ ((pyStrip text).take n).length := length_pyRstrip_le _
    _ ≤ n := by
        rw [List.length_take]
        exact min_le_left _ _

/-- C8 counterexample: a 101-character text without spaces yields a preview of
103 characters (100-character stem plus the 3-character ellipsis), so the
preview is not bounded at 100 characters as claimed. -/
theorem c8_counterexample :
    ¬ (create_text_preview (List.replicate 101 'a') 100).length ≤ 100 := by
  decide

/-- C8 (amended): the preview is bounded at 103 characters (the 100-character
budget plus the 3-character ellipsis); a text whose stripped form fits the
budget is returned verbatim; a longer text is clipped to the budget (with
trailing whitespace removed), cut at the last space when that space's index in
the clipped stem strictly exceeds 80 (the final 20% of the budget), otherwise
kept at the hard limit with no boundary cut, and the ellipsis is appended. -/
theorem c8_amended_preview_behavior (text : List Char) :
    (create_text_preview text 100).length ≤ 103 ∧
    ((pyStrip text).length ≤ 100 → create_text_preview text 100 = pyStrip text) ∧
    (100 < (pyStrip text).length →
      (∀ k, rfindSpace (clipAt text 100) = some k → 80 < k →
        create_text_preview text 100 = (clipAt text 100).take k ++ ellipsisL) ∧
      ((∀ k, rfindSpace (clipAt text 100) = some k → k ≤ 80) →
        create_text_preview text 100 = clipAt text 100 ++ ellipsisL)) := by
  by_cases hle : (pyStrip text).length ≤ 100
  · have hval : create_text_preview text 100 = pyStrip text := by
      unfold create_text_preview
      rw [if_pos hle]
    refine ⟨?_, fun _ => hval, fun hgt => absurd hgt (by omega)⟩
    rw [hval]
    omega
  · have hstem : (clipAt text 100).length ≤ 100 := length_clipAt_le text 100
    rcases hrf : rfindSpace (clipAt text 100) with _ | k
    · have hval : create_text_preview text 100 = clipAt text 100 ++ ellipsisL := by
        unfold create_text_preview clipAt
        rw [if_neg hle]
        unfold clipAt at hrf
        simp only [hrf]
      refine ⟨?_, fun h => absurd h hle, fun _ => ⟨?_, fun _ => hval⟩⟩
      · rw [hval, List.length_append]
        unfold ellipsisL
        simp only [List.length_cons, List.length_nil]
        omega
      · intro k hk
        cases hk
    · by_cases hcut : 80 < k
      · have hcond : 4 * 100 < 5 * k := by omega
        have hval : create_text_preview text 100 = (clipAt text 100).take k ++ ellipsisL := by
          unfold create_text_preview clipAt
          rw [if_neg hle]
          unfold clipAt at hrf
          simp only [hrf]
          rw [if_pos hcond]
        refine ⟨?_, fun h => absurd h hle, fun _ => ⟨?_, ?_⟩⟩
        · rw [hval, List.length_append]
          have htk : ((clipAt text 100).take k).length ≤ (clipAt text 100).length :=
            (List.take_sublist _ _).length_le
          unfold ellipsisL
          simp only [List.length_cons, List.length_nil]
          omega
        · intro k' hk' _
          obtain rfl : k = k' := by injection hk'
          exact hval
        · intro hall
          exact absurd (hall k rfl) (by omega)
      · have hcond : ¬ 4 * 100 < 5 * k := by omega
        have hval : create_text_preview text 100 = clipAt text 100 ++ ellipsisL := by
          unfold create_text_preview clipAt
          rw [if_neg hle]
          unfold clipAt at hrf
          simp only [hrf]
          rw [if_neg hcond]
        refine ⟨?_, fun h => absurd h hle, fun _ => ⟨?_, fun _ => hval⟩⟩
        · rw [hval, List.length_append]
          unfold ellipsisL
          simp only [List.length_cons, List.length_nil]
          omega
        · intro k' hk' hgt
          obtain rfl : k = k' := by injection hk'
          exact absurd hgt (by omega)

/-- Witness for C8 (amended) at concrete texts: a short text is returned
verbatim, and a 101-character spaceless text is truncated at the hard limit
with the ellipsis appended. -/
theorem c8_witness :
    create_text_preview (' ' :: 'h' :: 'i' :: []) 100 = pyStrip (' ' :: 'h' :: 'i' :: []) ∧
    create_text_preview (List.replicate 101 'a') 100
      = clipAt (List.replicate 101 'a') 100 ++ ellipsisL :=
  ⟨(c8_amended_preview_behavior (' ' :: 'h' :: 'i' :: [])).2.1 (by decide),
   ((c8_amended_preview_behavior (List.replicate 101 'a')).2.2 (by decide)).2
     (by intro k hk; rw [show rfindSpace (clipAt (List.replicate 101 'a') 100) = none
           from by decide] at hk; cases hk)⟩

/-- The external embedding provider (`model.encode`): an opaque total function
from a batch of texts to one vector per text. Quantifying over it shows which
results are reached without any embedding computation. -/
abbrev Encode := List (List Char) → List (List ℚ)

/-- `settings.get_available_models()` from `config.py`. -/
def available_models : List String := ["miniLM", "mpnet", "jina-small"]

/-- `EmbeddingService.generate_embeddings`: raises `ValueError` for an empty
text list or an unknown model key before any call to the encoder. -/
def generate_embeddings (encode : Encode) (texts : List (List Char))
    (model_key : String) : Except PyError (List (List ℚ)) :=
  if texts = [] then .error .valueError
  else if model_key ∈ available_models then .ok (encode texts)
  else .error .valueError

/-- `SimilarityPair` record from `app.models.schema`, as assembled by
`DetectionService._create_similarity_pairs`. -/
structure SimilarityPair where
  index_1 : ℕ
  index_2 : ℕ
  similarity : ℚ
  text_1_preview : List Char
  text_2_preview : List Char
deriving DecidableEq, Repr

/-- `DetectionService._create_similarity_pairs`: attach 100-character previews
of both source texts to each raw triple. -/
def create_similarity_pairs (raw : List (ℕ × ℕ × ℚ)) (texts : List (List Char)) :
    List SimilarityPair :=
  raw.map fun p =>
    ⟨p.1, p.2.1, p.2.2,
      create_text_preview (texts.getD p.1 []) 100,
      create_text_preview (texts.getD p.2.1 []) 100⟩

/-- Metadata dictionary assembled by `DetectionService.analyze_texts`
(the wall-clock `execution_time` entry is not representable and is omitted;
no claim refers to it). -/
structure AnalysisMetadata where
  model_used : String
  threshold_used : ℚ
  total_comparisons : ℕ
  similarity_stats : SimilarityStatistics
deriving DecidableEq, Repr

/-- `DetectionService.analyze_texts`: embeddings, then similarity matrix, then
threshold extraction, then preview-augmented pairs and metadata. -/
def analyze_texts (encode : Encode) (texts : List (List Char)) (model_key : String)
    (threshold : ℚ) :
    Except PyError (List (List ℚ) × List SimilarityPair × AnalysisMetadata) := do
  let embeddings ← generate_embeddings encode texts model_key
  let matrix ← calculate_similarity_matrix embeddings
  let raw ← find_similar_pairs matrix threshold
  let pairs := create_similarity_pairs raw texts
  pure (matrix, pairs,
    ⟨model_key, threshold, texts.length * (texts.length - 1) / 2,
      get_similarity_statistics matrix⟩)

/-- Report dictionary returned by `DetectionService.get_text_similarity_report`
(the `analysis_time` entry is omitted; no claim refers to it). -/
structure SimilarityReport where
  similarity_score : ℚ
  is_highly_similar : Bool
  is_moderately_similar : Bool
  text1_preview : List Char
  text2_preview : List Char
  model_used : String
deriving DecidableEq, Repr

/-- `DetectionService.get_text_similarity_report`: run the pipeline on the two
texts at threshold `0.0` and read `matrix[0, 1]` as the score. -/
def get_text_similarity_report (encode : Encode) (text1 text2 : List Char)
    (model_key : String) : Except PyError SimilarityReport := do
  let r ← analyze_texts encode [text1, text2] model_key 0
  let score := matEntry r.1 0 1
  pure ⟨score, decide ((85 : ℚ) / 100 ≤ score), decide ((7 : ℚ) / 10 ≤ score),
    create_text_preview text1 100, create_text_preview text2 100, model_key⟩

/-- The `/compare` endpoint `compare_two_texts` from `api/analyze.py`: raises
`ValueError` when either text is blank after trimming, before calling
`get_text_similarity_report`. -/
def compare_two_texts (encode : Encode) (text1 text2 : List Char)
    (model_key : String) : Except PyError SimilarityReport :=
  if pyStrip text1 = [] ∨ pyStrip text2 = [] then .error .valueError
  else get_text_similarity_report encode text1 text2 model_key

/-- C7: with an empty document list, `analyze_texts` fails with the
`ValueError` kind for every possible encoder (so before any embedding
computation could contribute), and `calculate_similarity_matrix` fails with
the `ValueError` kind on a zero-element vector sequence. -/
theorem c7_empty_input_validation :
    (∀ (encode : Encode) (model_key : String) (t : ℚ),
      analyze_texts encode [] model_key t = Except.error PyError.valueError) ∧
    calculate_similarity_matrix ([] : List (List ℚ)) = Except.error PyError.valueError := by
  constructor
  · intro encode model_key t
    rfl
  · rfl

/-- C9: the two-text comparison fails with the `ValueError` kind whenever either
input text is blank after trimming, for every possible encoder — hence no
embedding or similarity computation influences the outcome. -/
theorem c9_blank_text_validation (encode : Encode) (text1 text2 : List Char)
    (model_key : String) (h : pyStrip text1 = [] ∨ pyStrip text2 = []) :
    compare_two_texts encode text1 text2 model_key = Except.error PyError.valueError := by
  unfold compare_two_texts
  rw [if_pos h]

/-- Witness for C9 at a concrete blank first text. -/
theorem c9_witness :
    compare_two_texts (fun _ => []) (' ' :: '\t' :: []) ('a' :: []) "miniLM"
      = Except.error PyError.valueError :=
  c9_blank_text_validation (fun _ => []) (' ' :: '\t' :: []) ('a' :: []) "miniLM"
    (Or.inl (by decide))

end PlagiarismDetector
